import Mathlib

/-!
# calendar_notifier: the event-extraction and date-matching pipeline of `main.go`

A shallow embedding of `src/main.go` (functions `main`, `extractValue`, `getEvents`) together
with the parts of the Go standard library they call (`strings.Index`, `strings.Split`, slicing,
`time.Parse`, `Time.AddDate`, `Time.Format`).

## Representation

* A Go `string` is a sequence of bytes.  It is represented as `List Char`, one list element per
  byte (the byte `b` is the element with code `b`); ASCII text therefore reads as itself.  All
  functions below only compare elements with ASCII constants and count positions, exactly like
  the byte-indexed Go code.
* `strings.Index` returns `-1` for "not found"; here it returns `none`.
* A run-time panic (slice bounds out of range) is an `Except.error`.
* The value of `time.Now()` is an input of the model: an instant in seconds since 1970 and a
  location, the location being given by the zone it reports for each instant.  `Day()` and
  `AddDate(0, 0, 7)` follow Go on it, on unbounded integers (the instants are far from the
  ends of `int64`).  The result of `time.Parse`, a midnight in UTC of an existing date, is
  represented by that civil date `(year, month, day)`.
* The network (`http.NewRequest`, `client.Do`, `ioutil.ReadAll`), `godotenv.Load` and
  `sendTelegramMessage` are inputs of the model: a run is a function of what they return.
-/

deriving instance DecidableEq for Except

namespace CalendarNotifier

/-- A Go string: a sequence of bytes, one list element per byte. -/
abbrev GoString := List Char

/-- A Go run-time panic. -/
inductive Panic where
  /-- The panic `slice bounds out of range [lo:len]` of a slice expression. -/
  | sliceBounds (lo len : Nat)
  deriving DecidableEq, Repr

/-! ## `strings` -/

/-- Go `strings.HasPrefix(s, p)`: `s` begins with `p`. -/
def startsWith : GoString → GoString → Bool
  | _, [] => true
  | [], _ :: _ => false
  | c :: s, p :: ps => c == p && startsWith s ps

/-- Go `strings.Index(s, substr)`: the index of the first instance of `substr` in `s`;
`none` stands for Go's `-1`. -/
def index : GoString → GoString → Option Nat
  | [], substr => if startsWith [] substr then some 0 else none
  | c :: s, substr =>
    if startsWith (c :: s) substr then some 0
    else (index s substr).map (· + 1)

/-- The slice expression `s[lo:]`; it panics when `lo > len(s)`. -/
def sliceFrom (s : GoString) (lo : Nat) : Except Panic GoString :=
  if lo ≤ s.length then .ok (s.drop lo) else .error (.sliceBounds lo s.length)

/-- The slice expression `s[lo:hi]`; it panics unless `lo ≤ hi ≤ len(s)`. -/
def slice (s : GoString) (lo hi : Nat) : Except Panic GoString :=
  if hi ≤ s.length then
    if lo ≤ hi then .ok ((s.take hi).drop lo) else .error (.sliceBounds lo hi)
  else .error (.sliceBounds hi s.length)

/-- The loop of Go `strings.Split` (`genSplit` with `sepSave = 0`): at most `n` times, cut
the text at the first instance of `sep` and continue after it; the remainder is the last
segment. -/
def splitLoop : Nat → GoString → GoString → List GoString
  | 0, s, _ => [s]
  | n + 1, s, sep =>
    match index s sep with
    | none => [s]
    | some m => s.take m :: splitLoop n (s.drop (m + sep.length)) sep

/-- Go `strings.Split(s, sep)` for a non-empty separator `sep` (the two call sites use the
constants `":"` and `"BEGIN:VEVENT"`): `genSplit` runs its loop at most `len(s)` times. -/
def split (s sep : GoString) : List GoString :=
  splitLoop s.length s sep

/-! ## `extractValue` -/

/-- The line terminator `"\n"`. -/
def newline : GoString := ['\n']

/-- Helper function to extract property value from a VCALENDAR event (`main.go`, lines 76-87).
```go
start := strings.Index(event, property)
if start == -1 { return "" }
start += len(property) + 1
end := strings.Index(event[start:], "\n")
if end == -1 { return "" }
return event[start : start+end]
``` -/
def extractValue (event property : GoString) : Except Panic GoString :=
  match index event property with
  | none => .ok []
  | some i =>
    let start := i + property.length + 1
    match sliceFrom event start with
    | .error p => .error p
    | .ok tail =>
      match index tail newline with
      | none => .ok []
      | some e => slice event start (start + e)

/-! ## `time` -/

/-- The civil date of a `time.Time`: what `Time.Date()` returns. -/
structure Date where
  year : Int
  month : Nat
  day : Nat
  deriving DecidableEq, Repr

/-- Go `time.isLeap`: `year%4 == 0 && (year%100 != 0 || year%400 == 0)`. -/
def isLeap (year : Int) : Bool :=
  year % 4 == 0 && (year % 100 != 0 || year % 400 == 0)

/-- Go `time.daysIn(m, year)`: the number of days in month `m` of `year`. -/
def daysIn (m : Nat) (year : Int) : Nat :=
  if m == 2 && isLeap year then 29
  else match m with
    | 1 => 31 | 2 => 28 | 3 => 31 | 4 => 30 | 5 => 31 | 6 => 30
    | 7 => 31 | 8 => 31 | 9 => 30 | 10 => 31 | 11 => 30 | 12 => 31
    | _ => 0

/-- Go `time.isDigit(s, i)`: `i` is in range and `s[i]` is a decimal digit. -/
def isDigit (s : GoString) (i : Nat) : Bool :=
  match s[i]? with
  | none => false
  | some c => decide ('0' ≤ c) && decide (c ≤ '9')

/-- The value `int(s[i] - '0')` of the digit at position `i`. -/
def digitAt (s : GoString) (i : Nat) : Nat :=
  (s.getD i '0').toNat - '0'.toNat

/-- Go `time.leadingInt`: consume the leading `[0-9]*` of `s`, accumulating its value in `x`;
`none` is the overflow error. -/
def leadingInt : GoString → Nat → Option (Nat × GoString)
  | [], x => some (x, [])
  | c :: s, x =>
    if decide (c < '0') || decide ('9' < c) then some (x, c :: s)
    else if x > 2 ^ 63 / 10 then none
    else
      let x1 := x * 10 + (c.toNat - '0'.toNat)
      if x1 > 2 ^ 63 then none else leadingInt s x1

/-- Go `time.atoi`: an optional sign followed by decimal digits and nothing else. -/
def atoi (s : GoString) : Option Int :=
  let neg := decide (s.head? = some '-')
  let s1 := if s.head? = some '-' ∨ s.head? = some '+' then s.drop 1 else s
  match leadingInt s1 0 with
  | some (q, []) => some (if neg then -(q : Int) else (q : Int))
  | _ => none

/-- Go `time.getnum(s, fixed)`: a one- or two-digit number at the front of `s` (two digits
required when `fixed`), and the rest of `s`. -/
def getnum (s : GoString) (fixed : Bool) : Option (Nat × GoString) :=
  if !isDigit s 0 then none
  else if !isDigit s 1 then
    if fixed then none else some (digitAt s 0, s.drop 1)
  else some (digitAt s 0 * 10 + digitAt s 1, s.drop 2)

/-- Go `time.Parse("20060102", value)`: the layout is the chunks `2006` (four-digit year),
`01` (two-digit month), `02` (two-digit day) and nothing else.  `none` stands for a non-nil
error; on success the result is the civil date (at 00:00 UTC). -/
def parseDate (value : GoString) : Option Date :=
  -- stdLongYear
  if value.length < 4 || !isDigit value 0 then none
  else
    match atoi (value.take 4) with
    | none => none
    | some year =>
      -- stdZeroMonth
      match getnum (value.drop 4) true with
      | none => none
      | some (month, value1) =>
        if month ≤ 0 || 12 < month then none -- month out of range
        else
          -- stdZeroDay
          match getnum value1 true with
          | none => none
          | some (day, value2) =>
            if value2.length ≠ 0 then none -- extra text
            else if day < 1 || day > daysIn month year then none -- day out of range
            else some ⟨year, month, day⟩

/-- The byte `'0' + n` of a decimal digit. -/
def digitByte (n : Nat) : Char := Char.ofNat ('0'.toNat + n)

/-- The decimal digits of `x`, most significant first, in front of `acc`. -/
def decimalLoop : Nat → Nat → GoString → GoString
  | 0, _, acc => acc
  | fuel + 1, x, acc =>
    if x < 10 then digitByte x :: acc
    else decimalLoop fuel (x / 10) (digitByte (x % 10) :: acc)

/-- The decimal representation of `x`. -/
def decimal (x : Nat) : GoString := decimalLoop (x + 1) x []

/-- Go `time.appendInt(b, x, width)`: a minus sign for negative `x`, then the decimal digits
of `|x|` padded with zeros on the left to `width` digits. -/
def appendInt (x : Int) (width : Nat) : GoString :=
  let ds := decimal x.natAbs
  (if x < 0 then ['-'] else []) ++ List.replicate (width - ds.length) '0' ++ ds

/-- Go `t.Format("02/01/2006")`: zero-padded day, `/`, zero-padded month, `/`, four-digit
year. -/
def formatDate (t : Date) : GoString :=
  appendInt t.day 2 ++ ['/'] ++ appendInt t.month 2 ++ ['/'] ++ appendInt t.year 4

/-- Zone information as returned by Go `(*Location).lookup(sec)`: the offset in seconds east of
UTC in use at the instant, and the instants at which that zone period starts and ends. -/
structure Zone where
  offset : Int
  start : Int
  stop : Int
  deriving DecidableEq, Repr

/-- A Go `*time.Location`, given by its method `lookup`: the zone in use at an instant in
seconds since 1 January 1970 UTC. -/
abbrev Location := Int → Zone

/-- A Go `time.Time`: an instant in seconds since 1 January 1970 UTC (`t.unixSec()`) and a
location.  The nanoseconds play no part in `Day`, `Date`, `Clock` and in the day of
`AddDate`. -/
structure Time where
  unix : Int
  loc : Location

/-- The table `daysBefore` of Go package `time`: the days of a non-leap year before each
month. -/
def daysBefore : List Nat := [0, 31, 59, 90, 120, 151, 181, 212, 243, 273, 304, 334, 365]

/-- Go `time.daysSinceEpoch(year)`, counted from 1 January 1970: the number of days from then to
1 January of `year` (400-year, 100-year and 4-year cycles, then single years). -/
def daysSinceEpoch (year : Int) : Int :=
  let y := year - 1
  let n400 := y / 400
  let y1 := y - 400 * n400
  let n100 := y1 / 100
  let y2 := y1 - 100 * n100
  let n4 := y2 / 4
  let y3 := y2 - 4 * n4
  146097 * n400 + 36524 * n100 + 1461 * n4 + 365 * y3 - 719162

/-- Go `time.absDate`: the civil date of day number `days`, counted from 1 January 1970. -/
def absDate (days : Int) : Date :=
  let d := days + 719162
  -- 400-year cycles
  let n400 := d / 146097
  let d1 := d - 146097 * n400
  -- 100-year cycles; the last has one extra leap year
  let n100 := d1 / 36524 - d1 / 36524 / 4
  let d2 := d1 - 36524 * n100
  -- 4-year cycles
  let n4 := d2 / 1461
  let d3 := d2 - 1461 * n4
  -- years within a 4-year cycle; the last is a leap year
  let n1 := d3 / 365 - d3 / 365 / 4
  let yday := (d3 - 365 * n1).toNat
  let year := 400 * n400 + 100 * n100 + 4 * n4 + n1 + 1
  if isLeap year && yday == 59 then ⟨year, 2, 29⟩
  else
    let day := if isLeap year && yday > 59 then yday - 1 else yday
    -- estimate the month on the assumption that every month has 31 days, then adjust
    let month := day / 31
    if day ≥ daysBefore.getD (month + 1) 0 then
      ⟨year, month + 2, day - daysBefore.getD (month + 1) 0 + 1⟩
    else ⟨year, month + 1, day - daysBefore.getD month 0 + 1⟩

/-- Go `t.abs()`: the seconds since 1 January 1970 00:00:00 on the wall clock of the location
of `t`. -/
def Time.abs (t : Time) : Int := t.unix + (t.loc t.unix).offset

/-- Go `t.Date()`: the civil date on which `t` occurs in its location. -/
def Time.date (t : Time) : Date := absDate (t.abs / 86400)

/-- Go `t.Day()`: the day of the month on which `t` occurs in its location. -/
def Time.day (t : Time) : Nat := t.date.day

/-- Go `t.Clock()`: hour, minute and second of the wall clock of the location of `t`. -/
def Time.clock (t : Time) : Int × Int × Int :=
  let sec := t.abs % 86400
  let hour := sec / 3600
  let sec1 := sec - hour * 3600
  let min := sec1 / 60
  (hour, min, sec1 - min * 60)

/-- Go `time.norm(hi, lo, base)`: the pair with `0 ≤ lo < base` and the same `hi * base + lo`. -/
def norm (hi lo base : Int) : Int × Int := (hi + lo / base, lo % base)

/-- Go `time.Date(year, month, day, hour, min, sec, 0, loc)`: month, second, minute and hour
overflow into the next unit, the day overflows into the following months through the day
count, and the wall clock reading is turned into an instant with the zone the location reports
for it. -/
def timeDate (year month day hour min sec : Int) (loc : Location) : Time :=
  -- Normalize month, overflowing into year.
  let (year1, m) := norm year (month - 1) 12
  let month1 := m + 1
  -- Normalize sec, min, hour, overflowing into day.
  let (min1, sec1) := norm min sec 60
  let (hour1, min2) := norm hour min1 60
  let (day1, hour2) := norm day hour1 24
  -- Compute days since the epoch, days before this month, days before today.
  let d := daysSinceEpoch year1 + (daysBefore.getD (month1 - 1).toNat 0 : Nat)
    + (if isLeap year1 && decide (month1 ≥ 3) then 1 else 0) + (day1 - 1)
  let unix := d * 86400 + (hour2 * 3600 + min2 * 60 + sec1)
  -- Look for zone offset for expected time, so we can adjust to UTC.
  let zone := loc unix
  if zone.offset ≠ 0 then
    let utc := unix - zone.offset
    let offset := if utc < zone.start ∨ utc ≥ zone.stop then (loc utc).offset else zone.offset
    ⟨unix - offset, loc⟩
  else ⟨unix, loc⟩

/-- Go `t.AddDate(years, months, days)`: `Date` applied to the civil date of `t` moved by the
arguments, with the wall clock and the location of `t`. -/
def Time.addDate (t : Time) (years months days : Int) : Time :=
  timeDate (t.date.year + years) (t.date.month + months) (t.date.day + days)
    t.clock.1 t.clock.2.1 t.clock.2.2 t.loc

/-! ## `main` -/

/-- What the body of the loop in `main` does with one element of `events`. -/
inductive Outcome where
  /-- The element is empty (line 36). -/
  | skippedEmpty
  /-- The value of `DTSTART` has fewer than two `:`-separated segments (line 50). -/
  | skippedSegments (start : GoString)
  /-- The second segment does not parse as a date (line 56). -/
  | skippedParse (eventStartDateString : GoString)
  /-- The event parsed and the rule of line 61 does not fire. -/
  | notDue (summary : GoString) (eventStart : Date)
  /-- The rule fires: `sendTelegramMessage(message)` is called. -/
  | send (summary : GoString) (eventStart : Date) (message : GoString)
  deriving DecidableEq, Repr

/-- The text `"SUMMARY"`. -/
def SUMMARY : GoString := "SUMMARY".toList
/-- The text `"DTSTART"`. -/
def DTSTART : GoString := "DTSTART".toList
/-- The text `":"`. -/
def colon : GoString := [':']
/-- The text `"BEGIN:VEVENT"`. -/
def beginVEvent : GoString := "BEGIN:VEVENT".toList

/-- The body of the loop in `main` (lines 35-70) for one element `event` of `events`, with
`now` the value of `time.Now()` read at line 47. -/
def processEvent (now : Time) (event : GoString) : Except Panic Outcome :=
  if event = [] then .ok .skippedEmpty
  else
    match extractValue event SUMMARY with
    | .error p => .error p
    | .ok summary =>
      match extractValue event DTSTART with
      | .error p => .error p
      | .ok start =>
        let oneWeekFromNow := now.addDate 0 0 7
        match split start colon with
        | _ :: eventStartDateString :: _ =>
          match parseDate eventStartDateString with
          | none => .ok (.skippedParse eventStartDateString)
          | some eventStart =>
            if eventStart.day = now.day ∨ eventStart.day = oneWeekFromNow.day then
              let niceDate := formatDate eventStart
              .ok (.send summary eventStart (summary ++ ": ".toList ++ niceDate))
            else .ok (.notDue summary eventStart)
        | _ => .ok (.skippedSegments start) -- len(startComponents) < 2

/-- A non-nil Go `error` value. -/
structure GoError where
  text : String
  deriving DecidableEq, Repr

/-- The HTTP response handed back by `client.Do`. -/
structure Response where
  /-- The field `resp.StatusCode`. -/
  statusCode : Int
  /-- The result of `ioutil.ReadAll(resp.Body)`. -/
  body : Except GoError GoString

/-- The behaviour of the network during one call of `getEvents`. -/
structure Fetch where
  /-- The error returned by `http.NewRequest("REPORT", calDavServerUrl, nil)`, if any. -/
  newRequest : Option GoError
  /-- The result of `client.Do(req)`. -/
  doResult : Except GoError Response

/-- The slice `okStatusCodes` of `getEvents`. -/
def okStatusCodes : List Int := [200, 207]

/-- Function `getEvents` (`main.go`, lines 105-186).  The result is Go's pair
`([]string, error)`: the `nil` slice is `[]`, the `nil` error is `none`. -/
def getEvents (net : Fetch) : List GoString × Option GoError :=
  match net.newRequest with
  | some err => ([], some err) -- line 119
  | none =>
    match net.doResult with
    | .error err => ([], some err) -- line 158
    | .ok resp =>
      -- here the variable err of line 156 is nil
      let err : Option GoError := none
      let requestOk := okStatusCodes.any (fun statusCode => resp.statusCode == statusCode)
      if !requestOk then ([], err) -- line 172: return nil, err
      else
        match resp.body with
        | .error err1 => ([], some err1) -- line 178
        | .ok body => (split body beginVEvent, none) -- line 185

/-- How a run of the program ends. -/
inductive Exit where
  /-- The loop ran to its end and `Program finished` was logged. -/
  | finished
  /-- A `log.Fatal`/`log.Fatalf` ended the run (lines 21 and 30). -/
  | fatal (err : GoError)
  /-- A run-time panic ended the run. -/
  | panicked (p : Panic)
  deriving DecidableEq, Repr

/-- One call of `sendTelegramMessage`: its argument, and whether it returned an error. -/
abbrev Call := GoString × Bool

/-- What a run does: the calls of `sendTelegramMessage` in the order they were made, and how
the run ended. -/
structure Run where
  calls : List Call
  exit : Exit
  deriving DecidableEq, Repr

/-- The loop of `main` (lines 34-71) from iteration `i` on, over the remaining elements of
`events`, after the calls `calls`.  `clock i` is the value of `time.Now()` in iteration
`i`; `sendFails k` tells whether call number `k` of `sendTelegramMessage` returns an error
(the error is only logged, lines 66-68). -/
def mainLoop (clock : Nat → Time) (sendFails : Nat → Bool) :
    Nat → List GoString → List Call → Run
  | _, [], calls => ⟨calls, .finished⟩
  | i, event :: rest, calls =>
    match processEvent (clock i) event with
    | .error p => ⟨calls, .panicked p⟩
    | .ok (.send _ _ message) =>
      mainLoop clock sendFails (i + 1) rest (calls ++ [(message, sendFails calls.length)])
    | .ok _ => mainLoop clock sendFails (i + 1) rest calls

/-- Everything outside the program that a run of `main` depends on. -/
structure World where
  /-- The error returned by `godotenv.Load()`, if any. -/
  dotenv : Option GoError
  /-- The network during `getEvents`. -/
  net : Fetch
  /-- The value of `time.Now()` in each iteration of the loop. -/
  clock : Nat → Time
  /-- Whether each call of `sendTelegramMessage`, in order, returns an error. -/
  sendFails : Nat → Bool

/-- Function `main` (`main.go`, lines 15-73). -/
def main (w : World) : Run :=
  match w.dotenv with
  | some err => ⟨[], .fatal err⟩
  | none =>
    match getEvents w.net with
    | (_, some err) => ⟨[], .fatal err⟩
    | (events, none) => mainLoop w.clock w.sendFails 0 events []

/-- The text `sub` occurs in `s` at position `j`. -/
def occursAt (s sub : GoString) (j : Nat) : Bool :=
  startsWith (s.drop j) sub

/-- A civil date that exists, with a year of at most four digits. -/
def validDate (d : Date) : Prop :=
  0 ≤ d.year ∧ d.year ≤ 9999 ∧ 1 ≤ d.month ∧ d.month ≤ 12 ∧
    1 ≤ d.day ∧ d.day ≤ daysIn d.month d.year

instance (d : Date) : Decidable (validDate d) := by
  unfold validDate
  infer_instance

/-- The eight digits `YYYYMMDD` of a date. -/
def yyyymmdd (d : Date) : GoString :=
  [digitByte (d.year.toNat / 1000 % 10), digitByte (d.year.toNat / 100 % 10),
   digitByte (d.year.toNat / 10 % 10), digitByte (d.year.toNat % 10),
   digitByte (d.month / 10 % 10), digitByte (d.month % 10),
   digitByte (d.day / 10 % 10), digitByte (d.day % 10)]

/-- The ten bytes `DD/MM/YYYY` of a date. -/
def ddmmyyyy (d : Date) : GoString :=
  [digitByte (d.day / 10 % 10), digitByte (d.day % 10), '/',
   digitByte (d.month / 10 % 10), digitByte (d.month % 10), '/',
   digitByte (d.year.toNat / 1000 % 10), digitByte (d.year.toNat / 100 % 10),
   digitByte (d.year.toNat / 10 % 10), digitByte (d.year.toNat % 10)]

/-- The text of `s` before the first instance of `sep`; all of `s` when there is none. -/
def textBefore (s sep : GoString) : GoString :=
  match index s sep with
  | none => s
  | some m => s.take m

/-- The next calendar day. -/
def nextDay (d : Date) : Date :=
  if d.day < daysIn d.month d.year then ⟨d.year, d.month, d.day + 1⟩
  else if d.month < 12 then ⟨d.year, d.month + 1, 1⟩
  else ⟨d.year + 1, 1, 1⟩

/-- Calendar arithmetic on civil dates, without clock or location: the date `n` calendar days
after `d`. -/
def daysLater : Nat → Date → Date
  | 0, d => d
  | n + 1, d => daysLater n (nextDay d)

/-- The location `time.UTC`. -/
def utc : Location := fun _ => ⟨0, -9223372036854775808, 9223372036854775807⟩

/-- The location `America/Havana` from 5 November 2023 to 3 November 2024: UTC-5 until
10 March 2024 05:00 UTC, when the wall clock jumps from 00:00 to 01:00, and UTC-4 after.
Outside that year the neighbouring zone period is given. -/
def havana : Location := fun sec =>
  if sec < 1699160400 then ⟨-14400, 1678597200, 1699160400⟩
  else if sec < 1710046800 then ⟨-18000, 1699160400, 1710046800⟩
  else if sec < 1730610000 then ⟨-14400, 1710046800, 1730610000⟩
  else ⟨-18000, 1730610000, 1741496400⟩

/-- The time 12:00:00 UTC on 15 January 2024. -/
def jan15 : Time := ⟨1705320000, utc⟩

/-- The time 12:00:00 UTC on 5 January 2024. -/
def jan05 : Time := ⟨1704456000, utc⟩

/-- The time 00:30:00 on 3 March 2024 in Havana (05:30:00 UTC). -/
def mar03Havana : Time := ⟨1709443800, havana⟩

/-- The message of a block that parses and triggers on `now`, if the block is one. -/
def dueMessage (now : Time) (event : GoString) : Option GoString :=
  match processEvent now event with
  | .ok (.send _ _ message) => some message
  | _ => none

/-- The messages of the blocks that parse and trigger, in block order, iteration `i` running
at the time `clock i`. -/
def dueMessages (clock : Nat → Time) : Nat → List GoString → List GoString
  | _, [] => []
  | i, event :: rest => (dueMessage (clock i) event).toList ++ dueMessages clock (i + 1) rest

/-- No block of the list makes the loop body panic. -/
def neverPanics (clock : Nat → Time) : Nat → List GoString → Bool
  | _, [] => true
  | i, event :: rest =>
    match processEvent (clock i) event with
    | .error _ => false
    | .ok _ => neverPanics clock (i + 1) rest

/-- The world of the examples: the environment loads, the request is built, the server answers
with status `statusCode` and body `body`, every iteration of the loop reads the time `now`, and
every call of `sendTelegramMessage` returns an error or not according to `fails`. -/
def exampleWorld (statusCode : Int) (body : GoString) (now : Time) (fails : Bool) : World :=
  ⟨none, ⟨none, .ok ⟨statusCode, .ok body⟩⟩, fun _ => now, fun _ => fails⟩

/-- The value of four digits. -/
def fourDigits (a b c e : Nat) : Nat := a * 1000 + b * 100 + c * 10 + e

/-! ## Facts about `strings.Index` and `strings.Split` -/

theorem startsWith_append (p t : GoString) : startsWith (p ++ t) p = true := by
  induction p with
  | nil => cases t <;> rfl
  | cons c p ih => simp [startsWith, ih]

theorem startsWith_nil (s : GoString) : startsWith s [] = true := by
  cases s <;> rfl

theorem startsWith_iff (s p : GoString) : startsWith s p = true ↔ ∃ t, s = p ++ t := by
  induction p generalizing s with
  | nil => simp [startsWith_nil]
  | cons c p ih =>
    cases s with
    | nil => simp [startsWith]
    | cons a s =>
      simp only [startsWith, Bool.and_eq_true, beq_iff_eq, ih, List.cons_append, List.cons.injEq]
      constructor
      · rintro ⟨h, t, rfl⟩
        exact ⟨t, h, rfl⟩
      · rintro ⟨t, h, rfl⟩
        exact ⟨h, t, rfl⟩

/-- Where `strings.Index` finds something, it is the first occurrence, and conversely. -/
theorem index_eq_some_iff (s sub : GoString) (i : Nat) :
    index s sub = some i ↔
      i ≤ s.length ∧ occursAt s sub i = true ∧ ∀ j < i, occursAt s sub j = false := by
  induction s generalizing i with
  | nil =>
    simp only [index, occursAt, List.drop_nil, List.length_nil, Nat.le_zero_eq]
    by_cases h : startsWith [] sub = true
    · simp only [h, if_true, Option.some.injEq, true_and]
      constructor
      · rintro rfl
        simp
      · rintro ⟨rfl, _⟩
        rfl
    · simp only [h, if_false]
      simp
  | cons c s ih =>
    simp only [index]
    by_cases h : startsWith (c :: s) sub = true
    · simp only [h, if_true, Option.some.injEq]
      constructor
      · rintro rfl
        simp [occursAt, h]
      · rintro ⟨_, _, h3⟩
        by_contra hne
        have := h3 0 (by omega)
        simp [occursAt, h] at this
    · rw [if_neg h]
      cases i with
      | zero =>
        simp [occursAt, h]
      | succ k =>
        simp only [Option.map_eq_some', ih, occursAt, List.drop_succ_cons, List.length_cons]
        constructor
        · rintro ⟨a, ⟨h1, h2, h3⟩, hak⟩
          have hak2 : a = k := by omega
          subst hak2
          refine ⟨by omega, h2, ?_⟩
          intro j hj
          cases j with
          | zero => simpa using h
          | succ j => simpa using h3 j (by omega)
        · rintro ⟨h1, h2, h3⟩
          refine ⟨k, ⟨by omega, h2, ?_⟩, rfl⟩
          intro j hj
          simpa using h3 (j + 1) (by omega)

/-- Where `strings.Index` finds nothing, the text occurs nowhere. -/
theorem index_eq_none_iff (s sub : GoString) :
    index s sub = none ↔ ∀ j ≤ s.length, occursAt s sub j = false := by
  induction s with
  | nil =>
    simp only [index, occursAt, List.length_nil, Nat.le_zero_eq]
    by_cases h : startsWith [] sub = true
    · simp [h]
    · simp [h]
  | cons c s ih =>
    simp only [index]
    by_cases h : startsWith (c :: s) sub = true
    · simp only [h, if_true]
      simp only [false_iff, reduceCtorEq]
      intro hall
      have := hall 0 (by omega)
      simp [occursAt, h] at this
    · rw [if_neg h]
      simp only [Option.map_eq_none', ih, occursAt, List.length_cons]
      constructor
      · intro hall j hj
        cases j with
        | zero => simpa using h
        | succ j => simpa using hall j (by omega)
      · intro hall j hj
        simpa using hall (j + 1) (by omega)

/-- The first instance of a single byte that does not occur in `X` is right after `X`. -/
theorem index_byte_append (c : Char) (X post : GoString) (h : c ∉ X) :
    index (X ++ c :: post) [c] = some X.length := by
  induction X with
  | nil => simp [index, startsWith]
  | cons a X ih =>
    have hne : ¬ a = c := fun e => h (by simp [e])
    have hX : c ∉ X := fun e => h (by simp [e])
    simp [index, startsWith, hne, ih hX]

/-- A single byte that does not occur in `X` is not found by `strings.Index`. -/
theorem index_byte_none (c : Char) (X : GoString) (h : c ∉ X) : index X [c] = none := by
  induction X with
  | nil => simp [index, startsWith]
  | cons a X ih =>
    have hne : ¬ a = c := fun e => h (by simp [e])
    have hX : c ∉ X := fun e => h (by simp [e])
    simp [index, startsWith, hne, ih hX]

/-- Function `extractValue` on a terminated line: when the first occurrence of `property` is
followed by one byte `d`, a text `X` without line terminator, and a line terminator, the result
is `X`. -/
theorem extractValue_line (pre property X post : GoString) (d : Char)
    (hfirst : ∀ j < pre.length,
      occursAt (pre ++ property ++ (d :: X) ++ ('\n' :: post)) property j = false)
    (hX : '\n' ∉ X) :
    extractValue (pre ++ property ++ (d :: X) ++ ('\n' :: post)) property = .ok X := by
  have hidx : index (pre ++ property ++ (d :: X) ++ ('\n' :: post)) property
      = some pre.length := by
    rw [index_eq_some_iff]
    refine ⟨by simp, ?_, hfirst⟩
    simp only [occursAt, List.append_assoc, List.drop_left]
    exact startsWith_append _ _
  have hdrop : List.drop (pre.length + property.length + 1)
      (pre ++ property ++ (d :: X) ++ ('\n' :: post)) = X ++ '\n' :: post := by
    have : pre ++ property ++ (d :: X) ++ ('\n' :: post)
        = (pre ++ property ++ [d]) ++ (X ++ '\n' :: post) := by simp
    rw [this]
    exact List.drop_left' (by simp; omega)
  have htake : List.drop (pre.length + property.length + 1)
      (List.take (pre.length + property.length + 1 + X.length)
        (pre ++ property ++ (d :: X) ++ ('\n' :: post))) = X := by
    have e1 : pre ++ property ++ (d :: X) ++ ('\n' :: post)
        = (pre ++ property ++ [d] ++ X) ++ ('\n' :: post) := by simp
    rw [e1, List.take_left' (by simp; omega)]
    exact List.drop_left' (by simp; omega)
  unfold extractValue
  rw [hidx]
  simp only [sliceFrom, slice]
  rw [if_pos (by simp; omega)]
  simp only [hdrop]
  rw [show index (X ++ '\n' :: post) newline = some X.length from index_byte_append _ _ _ hX]
  simp only []
  rw [if_pos (by simp; omega), if_pos (by omega), htake]

/-! ## Facts about `time.Parse` and `Time.Format` -/

theorem char_le_iff (a b : Char) : a ≤ b ↔ a.toNat ≤ b.toNat := Iff.rfl

theorem char_lt_iff (a b : Char) : a < b ↔ a.toNat < b.toNat := Iff.rfl

theorem digitByte_toNat (n : Nat) (h : n < 10) : (digitByte n).toNat = 48 + n := by
  interval_cases n <;> rfl

/-- A digit byte is the byte of its value. -/
theorem digitByte_of_digit (c : Char) (h1 : '0' ≤ c) (h2 : c ≤ '9') :
    c.toNat - 48 < 10 ∧ digitByte (c.toNat - 48) = c := by
  rw [char_le_iff] at h1 h2
  have e1 : ('0' : Char).toNat = 48 := rfl
  have e2 : ('9' : Char).toNat = 57 := rfl
  rw [e1] at h1
  rw [e2] at h2
  refine ⟨by omega, ?_⟩
  unfold digitByte
  rw [e1, show 48 + (c.toNat - 48) = c.toNat by omega]
  exact Char.ofNat_toNat c

theorem digitByte_ge (n : Nat) (h : n < 10) : '0' ≤ digitByte n := by
  rw [char_le_iff, digitByte_toNat n h]
  exact Nat.le_add_right 48 n

theorem digitByte_le (n : Nat) (h : n < 10) : digitByte n ≤ '9' := by
  rw [char_le_iff, digitByte_toNat n h]
  show 48 + n ≤ 57
  omega

theorem isDigit_zero (c : Char) (s : GoString) :
    isDigit (c :: s) 0 = (decide ('0' ≤ c) && decide (c ≤ '9')) := by
  simp [isDigit]

theorem isDigit_succ (c : Char) (s : GoString) (i : Nat) :
    isDigit (c :: s) (i + 1) = isDigit s i := by
  simp [isDigit]

theorem isDigit_digitByte (n : Nat) (h : n < 10) (s : GoString) :
    isDigit (digitByte n :: s) 0 = true := by
  simp [isDigit_zero, digitByte_ge n h, digitByte_le n h]

theorem digitAt_zero (n : Nat) (h : n < 10) (s : GoString) :
    digitAt (digitByte n :: s) 0 = n := by
  simp only [digitAt, List.getD_cons_zero, digitByte_toNat n h]
  show 48 + n - 48 = n
  omega

theorem digitAt_one (c : Char) (n : Nat) (h : n < 10) (s : GoString) :
    digitAt (c :: digitByte n :: s) 1 = n := by
  simp only [digitAt, List.getD_cons_succ, List.getD_cons_zero, digitByte_toNat n h]
  show 48 + n - 48 = n
  omega

/-- Function `getnum` with `fixed` on two digit bytes. -/
theorem getnum_digitBytes (a b : Nat) (ha : a < 10) (hb : b < 10) (rest : GoString) :
    getnum (digitByte a :: digitByte b :: rest) true = some (a * 10 + b, rest) := by
  simp [getnum, isDigit_digitByte a ha, isDigit_succ, isDigit_digitByte b hb,
    digitAt_zero a ha, digitAt_one _ b hb]

/-- Function `getnum` with `fixed` succeeds only on two digit bytes. -/
theorem getnum_fixed_some (s rest : GoString) (n : Nat)
    (h : getnum s true = some (n, rest)) :
    ∃ a b, a < 10 ∧ b < 10 ∧ s = digitByte a :: digitByte b :: rest ∧ n = a * 10 + b := by
  rcases s with _ | ⟨c0, _ | ⟨c1, t⟩⟩
  · simp [getnum, isDigit] at h
  · simp [getnum, isDigit] at h
  · by_cases h0 : isDigit (c0 :: c1 :: t) 0 = true
    · by_cases h1 : isDigit (c0 :: c1 :: t) 1 = true
      · simp only [getnum, h0, h1, Bool.not_true, Bool.false_eq_true, if_false,
          Option.some.injEq, Prod.mk.injEq, List.drop_succ_cons, List.drop_zero] at h
        simp only [isDigit_zero, Bool.and_eq_true, decide_eq_true_eq] at h0
        simp only [isDigit_succ, isDigit_zero, Bool.and_eq_true, decide_eq_true_eq] at h1
        obtain ⟨ha, ea⟩ := digitByte_of_digit c0 h0.1 h0.2
        obtain ⟨hb, eb⟩ := digitByte_of_digit c1 h1.1 h1.2
        refine ⟨c0.toNat - 48, c1.toNat - 48, ha, hb, ?_, ?_⟩
        · rw [ea, eb, h.2]
        · rw [← h.1]
          rfl
      · simp [getnum, h0, h1] at h
    · simp [getnum, h0] at h

/-- One step of `leadingInt` far from overflow. -/
theorem leadingInt_cons (c : Char) (s : GoString) (x : Nat) (hx : x < 1000) :
    leadingInt (c :: s) x =
      if '0' ≤ c ∧ c ≤ '9' then leadingInt s (x * 10 + (c.toNat - 48))
      else some (x, c :: s) := by
  have e1 : ('0' : Char).toNat = 48 := rfl
  have e2 : ('9' : Char).toNat = 57 := rfl
  by_cases h : '0' ≤ c ∧ c ≤ '9'
  · have h1 := (char_le_iff _ _).1 h.1
    have h2 := (char_le_iff _ _).1 h.2
    rw [e1] at h1
    rw [e2] at h2
    have n1 : ¬ c < '0' := by
      rw [char_lt_iff, e1]
      omega
    have n2 : ¬ '9' < c := by
      rw [char_lt_iff, e2]
      omega
    have o1 : ¬ x > 2 ^ 63 / 10 := by
      norm_num
      omega
    have o2 : ¬ x * 10 + (c.toNat - 48) > 2 ^ 63 := by
      norm_num
      omega
    rw [if_pos h]
    simp only [leadingInt, n1, n2, decide_False, Bool.or_self, Bool.false_eq_true, if_false, e1,
      if_neg o1, if_neg o2]
  · rw [if_neg h]
    have h3 : c < '0' ∨ '9' < c := by
      rw [char_lt_iff, char_lt_iff, e1, e2]
      rw [char_le_iff, char_le_iff, e1, e2] at h
      omega
    simp only [leadingInt]
    rw [if_pos (by simpa using h3)]

theorem atoi_digit_head (c : Char) (s : GoString) (h1 : '0' ≤ c) (_h2 : c ≤ '9') :
    atoi (c :: s) =
      match leadingInt (c :: s) 0 with
      | some (q, []) => some (q : Int)
      | _ => none := by
  have e1 : ('0' : Char).toNat = 48 := rfl
  have hm : ¬ c = '-' := by
    intro e
    rw [e] at h1
    exact absurd h1 (by decide)
  have hp : ¬ c = '+' := by
    intro e
    rw [e] at h1
    exact absurd h1 (by decide)
  simp [atoi, hm, hp]

/-- Function `atoi` on four digit bytes. -/
theorem atoi_digitBytes (a b c e : Nat) (ha : a < 10) (hb : b < 10) (hc : c < 10)
    (he : e < 10) :
    atoi [digitByte a, digitByte b, digitByte c, digitByte e]
      = some ((fourDigits a b c e : Nat) : Int) := by
  have da := digitByte_toNat a ha
  have db := digitByte_toNat b hb
  have dc := digitByte_toNat c hc
  have de := digitByte_toNat e he
  rw [atoi_digit_head _ _ (digitByte_ge a ha) (digitByte_le a ha)]
  rw [leadingInt_cons _ _ _ (by omega), if_pos ⟨digitByte_ge a ha, digitByte_le a ha⟩,
    leadingInt_cons _ _ _ (by omega), if_pos ⟨digitByte_ge b hb, digitByte_le b hb⟩,
    leadingInt_cons _ _ _ (by omega), if_pos ⟨digitByte_ge c hc, digitByte_le c hc⟩,
    leadingInt_cons _ _ _ (by omega), if_pos ⟨digitByte_ge e he, digitByte_le e he⟩]
  simp only [leadingInt, da, db, dc, de, fourDigits]
  congr 2
  omega

/-- Function `atoi` succeeds on four bytes, the first a digit, only if all are digits. -/
theorem atoi_four_some (c0 c1 c2 c3 : Char) (y : Int) (h1 : '0' ≤ c0) (h2 : c0 ≤ '9')
    (h : atoi [c0, c1, c2, c3] = some y) :
    ∃ a b c e, a < 10 ∧ b < 10 ∧ c < 10 ∧ e < 10 ∧
      [c0, c1, c2, c3] = [digitByte a, digitByte b, digitByte c, digitByte e] ∧
      y = ((fourDigits a b c e : Nat) : Int) := by
  obtain ⟨ha, ea⟩ := digitByte_of_digit c0 h1 h2
  rw [atoi_digit_head _ _ h1 h2, leadingInt_cons _ _ _ (by omega), if_pos ⟨h1, h2⟩,
    leadingInt_cons _ _ _ (by omega)] at h
  by_cases d1 : '0' ≤ c1 ∧ c1 ≤ '9'
  · obtain ⟨hb, eb⟩ := digitByte_of_digit c1 d1.1 d1.2
    rw [if_pos d1, leadingInt_cons _ _ _ (by omega)] at h
    by_cases d2 : '0' ≤ c2 ∧ c2 ≤ '9'
    · obtain ⟨hc, ec⟩ := digitByte_of_digit c2 d2.1 d2.2
      rw [if_pos d2, leadingInt_cons _ _ _ (by omega)] at h
      by_cases d3 : '0' ≤ c3 ∧ c3 ≤ '9'
      · obtain ⟨he, ee⟩ := digitByte_of_digit c3 d3.1 d3.2
        rw [if_pos d3] at h
        simp only [leadingInt, Option.some.injEq] at h
        refine ⟨_, _, _, _, ha, hb, hc, he, ?_, ?_⟩
        · rw [ea, eb, ec, ee]
        · rw [← h]
          simp only [fourDigits]
          congr 1
          omega
      · rw [if_neg d3] at h
        simp at h
    · rw [if_neg d2] at h
      simp at h
  · rw [if_neg d1] at h
    simp at h

/-- Function `parseDate` on eight digit bytes. -/
theorem parseDate_digitBytes (a b c e f g h i : Nat) (ha : a < 10) (hb : b < 10)
    (hc : c < 10) (he : e < 10) (hf : f < 10) (hg : g < 10) (hh : h < 10) (hi : i < 10) :
    parseDate [digitByte a, digitByte b, digitByte c, digitByte e,
        digitByte f, digitByte g, digitByte h, digitByte i]
      = if 1 ≤ f * 10 + g ∧ f * 10 + g ≤ 12 ∧ 1 ≤ h * 10 + i ∧
            h * 10 + i ≤ daysIn (f * 10 + g) ((fourDigits a b c e : Nat) : Int)
        then some ⟨((fourDigits a b c e : Nat) : Int), f * 10 + g, h * 10 + i⟩
        else none := by
  unfold parseDate
  rw [if_neg (by simp [isDigit_digitByte a ha])]
  simp only [List.take_succ_cons, List.take_zero, List.drop_succ_cons, List.drop_zero,
    atoi_digitBytes a b c e ha hb hc he, getnum_digitBytes f g hf hg,
    getnum_digitBytes h i hh hi, List.length_nil]
  by_cases hm : 1 ≤ f * 10 + g ∧ f * 10 + g ≤ 12
  · have c1 : (decide (f * 10 + g ≤ 0) || decide (12 < f * 10 + g)) = false := by
      simp only [Bool.or_eq_false_iff, decide_eq_false_iff_not]
      omega
    by_cases hd : 1 ≤ h * 10 + i ∧
        h * 10 + i ≤ daysIn (f * 10 + g) ((fourDigits a b c e : Nat) : Int)
    · have c2 : (decide (h * 10 + i < 1) ||
          decide (h * 10 + i > daysIn (f * 10 + g) ((fourDigits a b c e : Nat) : Int)))
            = false := by
        simp only [Bool.or_eq_false_iff, decide_eq_false_iff_not]
        omega
      simp only [c1, c2, Bool.false_eq_true, if_false, ne_eq, not_true_eq_false]
      rw [if_pos ⟨hm.1, hm.2, hd.1, hd.2⟩]
    · have c2 : (decide (h * 10 + i < 1) ||
          decide (h * 10 + i > daysIn (f * 10 + g) ((fourDigits a b c e : Nat) : Int)))
            = true := by
        simp only [Bool.or_eq_true, decide_eq_true_eq]
        omega
      simp only [c1, c2, Bool.false_eq_true, if_false, if_true, ne_eq, not_true_eq_false]
      rw [if_neg (fun hx => hd ⟨hx.2.2.1, hx.2.2.2⟩)]
  · have c1 : (decide (f * 10 + g ≤ 0) || decide (12 < f * 10 + g)) = true := by
      simp only [Bool.or_eq_true, decide_eq_true_eq]
      omega
    simp only [c1, if_true]
    rw [if_neg (fun hx => hm ⟨hx.1, hx.2.1⟩)]

/-- Function `parseDate`, the model of `time.Parse("20060102", s)`, succeeds exactly on the eight
digits `YYYYMMDD` of an existing date, and returns that date. -/
theorem parseDate_eq_some_iff (s : GoString) (d : Date) :
    parseDate s = some d ↔ validDate d ∧ s = yyyymmdd d := by
  constructor
  · intro h
    unfold parseDate at h
    by_cases hg : (decide (s.length < 4) || !isDigit s 0) = true
    · rw [if_pos hg] at h
      exact absurd h (by simp)
    rw [if_neg hg] at h
    simp only [Bool.or_eq_true, decide_eq_true_eq, Bool.not_eq_true', not_or, not_lt,
      Bool.not_eq_false] at hg
    obtain ⟨hlen, hd0⟩ := hg
    rcases s with _ | ⟨c0, _ | ⟨c1, _ | ⟨c2, _ | ⟨c3, t⟩⟩⟩⟩
    · simp at hlen
    · simp at hlen
    · simp at hlen
    · simp at hlen
    simp only [isDigit_zero, Bool.and_eq_true, decide_eq_true_eq] at hd0
    simp only [List.take_succ_cons, List.take_zero, List.drop_succ_cons, List.drop_zero] at h
    cases hat : atoi [c0, c1, c2, c3] with
    | none => simp [hat] at h
    | some year =>
      obtain ⟨a, b, c, e, ha, hb, hc, he, hs4, hy⟩ :=
        atoi_four_some c0 c1 c2 c3 year hd0.1 hd0.2 hat
      simp only [hat] at h
      cases hgm : getnum t true with
      | none => simp [hgm] at h
      | some mv =>
        obtain ⟨month, v1⟩ := mv
        obtain ⟨f, g, hf, hg1, ht, hmonth⟩ := getnum_fixed_some t v1 month hgm
        simp only [hgm] at h
        by_cases hm : (decide (month ≤ 0) || decide (12 < month)) = true
        · rw [if_pos hm] at h
          exact absurd h (by simp)
        rw [if_neg hm] at h
        cases hgd : getnum v1 true with
        | none => simp [hgd] at h
        | some dv =>
          obtain ⟨day, v2⟩ := dv
          obtain ⟨hh, ii, hhh, hii, hv1, hday⟩ := getnum_fixed_some v1 v2 day hgd
          simp only [hgd] at h
          by_cases hx : v2.length ≠ 0
          · rw [if_pos hx] at h
            exact absurd h (by simp)
          rw [if_neg hx] at h
          by_cases hdr : (decide (day < 1) || decide (day > daysIn month year)) = true
          · rw [if_pos hdr] at h
            exact absurd h (by simp)
          rw [if_neg hdr] at h
          simp only [Option.some.injEq] at h
          simp only [Bool.or_eq_true, decide_eq_true_eq, not_or, not_le, not_lt] at hm hdr
          have hv2 : v2 = [] := by
            cases v2 with
            | nil => rfl
            | cons x xs => simp at hx
          subst hv2
          subst h
          have hlist : c0 :: c1 :: c2 :: c3 :: t
              = [digitByte a, digitByte b, digitByte c, digitByte e,
                  digitByte f, digitByte g, digitByte hh, digitByte ii] := by
            simp only [List.cons.injEq] at hs4
            rw [ht, hv1, hs4.1, hs4.2.1, hs4.2.2.1, hs4.2.2.2.1]
          rw [hlist]
          have e1 : (a * 1000 + b * 100 + c * 10 + e) / 1000 % 10 = a := by omega
          have e2 : (a * 1000 + b * 100 + c * 10 + e) / 100 % 10 = b := by omega
          have e3 : (a * 1000 + b * 100 + c * 10 + e) / 10 % 10 = c := by omega
          have e4 : (a * 1000 + b * 100 + c * 10 + e) % 10 = e := by omega
          have e5 : (f * 10 + g) / 10 % 10 = f := by omega
          have e6 : (f * 10 + g) % 10 = g := by omega
          have e7 : (hh * 10 + ii) / 10 % 10 = hh := by omega
          have e8 : (hh * 10 + ii) % 10 = ii := by omega
          constructor
          · show 0 ≤ year ∧ year ≤ 9999 ∧ 1 ≤ month ∧ month ≤ 12 ∧ 1 ≤ day ∧
              day ≤ daysIn month year
            refine ⟨?_, ?_, by omega, by omega, by omega, by omega⟩
            · rw [hy]
              exact Int.natCast_nonneg _
            · rw [hy]
              simp only [fourDigits]
              omega
          · simp only [yyyymmdd, hy, Int.toNat_ofNat, fourDigits, hmonth, hday, e1, e2, e3, e4,
              e5, e6, e7, e8]
  · rintro ⟨⟨hy0, hy1, hm1, hm2, hd1, hd2⟩, rfl⟩
    have hdd : d.day ≤ 31 := by
      have : daysIn d.month d.year ≤ 31 := by
        unfold daysIn
        split
        · omega
        · split <;> omega
      omega
    have hyear : ((fourDigits (d.year.toNat / 1000 % 10) (d.year.toNat / 100 % 10)
        (d.year.toNat / 10 % 10) (d.year.toNat % 10) : Nat) : Int) = d.year := by
      simp only [fourDigits]
      omega
    have hmonth : d.month / 10 % 10 * 10 + d.month % 10 = d.month := by omega
    have hday : d.day / 10 % 10 * 10 + d.day % 10 = d.day := by omega
    unfold yyyymmdd
    rw [parseDate_digitBytes _ _ _ _ _ _ _ _ (Nat.mod_lt _ (by omega)) (Nat.mod_lt _ (by omega))
      (Nat.mod_lt _ (by omega)) (Nat.mod_lt _ (by omega)) (Nat.mod_lt _ (by omega))
      (Nat.mod_lt _ (by omega)) (Nat.mod_lt _ (by omega)) (Nat.mod_lt _ (by omega))]
    rw [hyear, hmonth, hday, if_pos ⟨hm1, hm2, hd1, hd2⟩]

theorem decimalLoop_lt_ten (fuel x : Nat) (acc : GoString) (hf : 0 < fuel) (hx : x < 10) :
    decimalLoop fuel x acc = digitByte x :: acc := by
  obtain ⟨k, rfl⟩ : ∃ k, fuel = k + 1 := ⟨fuel - 1, by omega⟩
  simp [decimalLoop, hx]

theorem decimalLoop_step (fuel x : Nat) (acc : GoString) (hf : 0 < fuel) (hx : 10 ≤ x) :
    decimalLoop fuel x acc = decimalLoop (fuel - 1) (x / 10) (digitByte (x % 10) :: acc) := by
  obtain ⟨k, rfl⟩ : ∃ k, fuel = k + 1 := ⟨fuel - 1, by omega⟩
  simp [decimalLoop, Nat.not_lt.2 hx]

theorem digitByte_zero : digitByte 0 = '0' := rfl

/-- Function `appendInt` with width 2 on a number below 100: two digits. -/
theorem appendInt_two (x : Nat) (h : x < 100) :
    appendInt (x : Int) 2 = [digitByte (x / 10 % 10), digitByte (x % 10)] := by
  have hneg : ¬ ((x : Int) < 0) := by omega
  simp only [appendInt, hneg, if_false, Int.natAbs_ofNat, List.nil_append, decimal]
  by_cases h10 : x < 10
  · rw [decimalLoop_lt_ten _ _ _ (by omega) h10]
    have e0 : x / 10 % 10 = 0 := by omega
    have e1 : x % 10 = x := by omega
    rw [e0, e1, digitByte_zero]
    rfl
  · rw [decimalLoop_step _ _ _ (by omega) (by omega),
      decimalLoop_lt_ten _ _ _ (by omega) (by omega)]
    have e0 : x / 10 % 10 = x / 10 := by omega
    rw [e0]
    rfl

/-- Function `appendInt` with width 4 on a number below 10000: four digits. -/
theorem appendInt_four (x : Nat) (h : x < 10000) :
    appendInt (x : Int) 4 = [digitByte (x / 1000 % 10), digitByte (x / 100 % 10),
      digitByte (x / 10 % 10), digitByte (x % 10)] := by
  have hneg : ¬ ((x : Int) < 0) := by omega
  simp only [appendInt, hneg, if_false, Int.natAbs_ofNat, List.nil_append, decimal]
  by_cases h10 : x < 10
  · rw [decimalLoop_lt_ten _ _ _ (by omega) h10]
    have e0 : x / 1000 % 10 = 0 := by omega
    have e1 : x / 100 % 10 = 0 := by omega
    have e2 : x / 10 % 10 = 0 := by omega
    have e3 : x % 10 = x := by omega
    rw [e0, e1, e2, e3, digitByte_zero]
    rfl
  · rw [decimalLoop_step _ _ _ (by omega) (by omega)]
    by_cases h100 : x < 100
    · rw [decimalLoop_lt_ten _ _ _ (by omega) (by omega)]
      have e0 : x / 1000 % 10 = 0 := by omega
      have e1 : x / 100 % 10 = 0 := by omega
      have e2 : x / 10 % 10 = x / 10 := by omega
      rw [e0, e1, e2, digitByte_zero]
      rfl
    · rw [decimalLoop_step _ _ _ (by omega) (by omega)]
      by_cases h1000 : x < 1000
      · rw [decimalLoop_lt_ten _ _ _ (by omega) (by omega)]
        have e0 : x / 1000 % 10 = 0 := by omega
        have e1 : x / 100 % 10 = x / 10 / 10 := by omega
        rw [e0, e1, digitByte_zero]
        rfl
      · rw [decimalLoop_step _ _ _ (by omega) (by omega),
          decimalLoop_lt_ten _ _ _ (by omega) (by omega)]
        have e0 : x / 1000 % 10 = x / 10 / 10 / 10 := by omega
        have e1 : x / 100 % 10 = x / 10 / 10 % 10 := by omega
        rw [e0, e1]
        rfl

/-- Function `formatDate`, the model of `t.Format("02/01/2006")`, writes an existing date with a
year of at most four digits as the ten bytes `DD/MM/YYYY`. -/
theorem formatDate_valid (d : Date) (h : validDate d) : formatDate d = ddmmyyyy d := by
  obtain ⟨hy0, hy1, hm1, hm2, hd1, hd2⟩ := h
  have hdd : d.day ≤ 31 := by
    have : daysIn d.month d.year ≤ 31 := by
      unfold daysIn
      split
      · omega
      · split <;> omega
    omega
  obtain ⟨y, hy⟩ : ∃ y : Nat, d.year = (y : Int) := ⟨d.year.toNat, by omega⟩
  unfold formatDate ddmmyyyy
  rw [hy, appendInt_two d.day (by omega), appendInt_two d.month (by omega),
    appendInt_four y (by omega)]
  simp

/-! ## Facts about `strings.Split` -/

/-- An instance of a non-empty text lies inside the text searched. -/
theorem index_add_length_le (s sub : GoString) (m : Nat) (h : index s sub = some m) :
    m + sub.length ≤ s.length := by
  obtain ⟨hm, hocc, _⟩ := (index_eq_some_iff s sub m).1 h
  obtain ⟨t, ht⟩ := (startsWith_iff _ _).1 hocc
  have hl := congrArg List.length ht
  simp only [List.length_drop, List.length_append] at hl
  omega

/-- The bound `len(s)` on the number of iterations of the loop of `strings.Split` is never
reached early: more iterations give the same result. -/
theorem splitLoop_fuel (sep : GoString) (hsep : sep ≠ []) (n : Nat) (s : GoString)
    (h : s.length ≤ n) : splitLoop n s sep = splitLoop s.length s sep := by
  have hpos : 0 < sep.length := List.length_pos.2 hsep
  induction n using Nat.strong_induction_on generalizing s with
  | _ n ih =>
    cases n with
    | zero =>
      have : s.length = 0 := by omega
      rw [this]
    | succ k =>
      cases hl : s.length with
      | zero =>
        have hs : s = [] := List.length_eq_zero.1 hl
        subst hs
        have hnone : index [] sep = none := by
          cases sep with
          | nil => exact absurd rfl hsep
          | cons c cs => rfl
        simp [splitLoop, hnone]
      | succ j =>
        simp only [splitLoop]
        cases hi : index s sep with
        | none => rfl
        | some m =>
          have hb := index_add_length_le s sep m hi
          have hlen : (s.drop (m + sep.length)).length ≤ j := by
            rw [List.length_drop]
            omega
          simp only []
          rw [ih k (by omega) _ (by omega), ih j (by omega) _ hlen]

/-- The text is cut around the instance that `strings.Index` finds. -/
theorem index_decompose (s sub : GoString) (m : Nat) (h : index s sub = some m) :
    s = s.take m ++ sub ++ s.drop (m + sub.length) := by
  obtain ⟨_, hocc, _⟩ := (index_eq_some_iff s sub m).1 h
  obtain ⟨t, ht⟩ := (startsWith_iff _ _).1 hocc
  have ht2 : s.drop (m + sub.length) = t := by
    rw [← List.drop_drop, ht]
    exact List.drop_left' rfl
  rw [ht2, List.append_assoc, ← ht, List.take_append_drop]

/-- Joining the segments of `strings.Split` with the separator gives the text back. -/
theorem splitLoop_join (sep : GoString) (n : Nat) (s : GoString) :
    sep.intercalate (splitLoop n s sep) = s := by
  induction n generalizing s with
  | zero => simp [splitLoop, List.intercalate]
  | succ k ih =>
    simp only [splitLoop]
    cases hi : index s sep with
    | none => simp [List.intercalate]
    | some m =>
      simp only []
      have hrec := ih (s.drop (m + sep.length))
      cases hsp : splitLoop k (s.drop (m + sep.length)) sep with
      | nil =>
        exfalso
        cases k <;> simp only [splitLoop] at hsp
        · exact absurd hsp (by simp)
        · split at hsp <;> exact absurd hsp (by simp)
      | cons y ys =>
        rw [hsp] at hrec
        have hd := index_decompose s sep m hi
        conv_rhs => rw [hd, ← hrec]
        simp [List.intercalate, List.intersperse, List.append_assoc]

/-- A text without `:` is a single segment for `strings.Split(_, ":")`. -/
theorem split_colon_single (value : GoString) (h : ':' ∉ value) :
    split value colon = [value] := by
  unfold split
  cases hl : value.length with
  | zero => rfl
  | succ n => simp [splitLoop, colon, index_byte_none ':' value h]

/-- The first segment of `strings.Split` is the text before the first separator. -/
theorem split_head (s sep : GoString) :
    ∃ rest, split s sep = textBefore s sep :: rest := by
  unfold split textBefore
  cases hl : s.length with
  | zero =>
    have hs : s = [] := List.length_eq_zero.1 hl
    subst hs
    cases hi : index [] sep with
    | none => exact ⟨[], rfl⟩
    | some m => exact ⟨[], by simp [splitLoop]⟩
  | succ n =>
    simp only [splitLoop]
    cases hi : index s sep with
    | none => exact ⟨[], rfl⟩
    | some m => exact ⟨_, rfl⟩

/-! ## Facts about the loop body -/

/-- The loop body on a block whose two lookups return and whose `DTSTART` value has at least
two segments: the outcome is decided by `time.Parse` on the second segment and by the rule of
line 61. -/
theorem processEvent_segments (now : Time) (event summary start first seg : GoString)
    (more : List GoString)
    (hs : extractValue event SUMMARY = .ok summary)
    (hd : extractValue event DTSTART = .ok start)
    (hsplit : split start colon = first :: seg :: more) :
    processEvent now event =
      match parseDate seg with
      | none => .ok (.skippedParse seg)
      | some d =>
        if d.day = now.day ∨ d.day = (now.addDate 0 0 7).day then
          .ok (.send summary d (summary ++ ": ".toList ++ formatDate d))
        else .ok (.notDue summary d) := by
  have hne : ¬ event = [] := by
    intro he
    subst he
    have h1 : extractValue [] DTSTART = .ok [] := rfl
    rw [h1] at hd
    have h2 : start = [] := by
      injection hd with h
      exact h.symm
    subst h2
    have h3 : split [] colon = [[]] := rfl
    rw [h3] at hsplit
    simp at hsplit
  unfold processEvent
  rw [if_neg hne]
  simp only [hs, hd, hsplit]

/-- The loop body on a block whose `DTSTART` value has no `:`: the block is skipped at the
two-segment check of line 50, provided the lookup of `SUMMARY` returns. -/
theorem processEvent_single_segment (now : Time) (event summary start : GoString)
    (hne : event ≠ [])
    (hs : extractValue event SUMMARY = .ok summary)
    (hd : extractValue event DTSTART = .ok start)
    (hcolon : ':' ∉ start) :
    processEvent now event = .ok (.skippedSegments start) := by
  unfold processEvent
  rw [if_neg hne]
  simp only [hs, hd, split_colon_single start hcolon]

/-- Function `extractValue` panics exactly when the first occurrence of the property name ends
the block. -/
theorem extractValue_panics_iff (event property : GoString) :
    (∃ p, extractValue event property = .error p) ↔
      ∃ i, index event property = some i ∧ i + property.length = event.length := by
  unfold extractValue
  cases hi : index event property with
  | none => simp
  | some i =>
    have hb := index_add_length_le event property i hi
    simp only [sliceFrom]
    by_cases hlen : i + property.length + 1 ≤ event.length
    · rw [if_pos hlen]
      simp only []
      cases hn : index (List.drop (i + property.length + 1) event) newline with
      | none =>
        simp only [Option.some.injEq, exists_eq_left', reduceCtorEq, exists_false, false_iff]
        omega
      | some e =>
        have hb2 := index_add_length_le _ _ _ hn
        simp only [List.length_drop, newline, List.length_singleton] at hb2
        simp only [slice]
        rw [if_pos (by omega), if_pos (by omega)]
        simp only [Option.some.injEq, exists_eq_left', reduceCtorEq, exists_false, false_iff]
        omega
    · rw [if_neg hlen]
      simp only [Except.error.injEq, exists_eq', Option.some.injEq, exists_eq_left', true_iff]
      omega

/-- Function `extractValue` on an unterminated last line: when at least one byte follows the
first occurrence of the property name and no line terminator follows that byte, the result is
the empty string. -/
theorem extractValue_unterminated (event property : GoString) (i : Nat)
    (hi : index event property = some i)
    (hlen : i + property.length + 1 ≤ event.length)
    (hnl : '\n' ∉ event.drop (i + property.length + 1)) :
    extractValue event property = .ok [] := by
  unfold extractValue
  rw [hi]
  simp only [sliceFrom]
  rw [if_pos hlen]
  simp only [newline, index_byte_none '\n' _ hnl]

/-- One iteration of the loop of `main` in which the rule fires: `sendTelegramMessage` is
called with the message, and the loop goes on with the next element whatever the call
returned. -/
theorem mainLoop_send (clock : Nat → Time) (sendFails : Nat → Bool) (i : Nat)
    (event : GoString) (rest : List GoString) (calls : List Call) (summary : GoString)
    (d : Date) (message : GoString)
    (h : processEvent (clock i) event = .ok (.send summary d message)) :
    mainLoop clock sendFails i (event :: rest) calls =
      mainLoop clock sendFails (i + 1) rest (calls ++ [(message, sendFails calls.length)]) := by
  simp only [mainLoop, h]

/-- The loop of `main` only adds calls: the calls made before stay at the front. -/
theorem mainLoop_calls_front (clock : Nat → Time) (sendFails : Nat → Bool)
    (events : List GoString) (i : Nat) (calls : List Call) :
    ∃ more, (mainLoop clock sendFails i events calls).calls = calls ++ more := by
  induction events generalizing i calls with
  | nil => exact ⟨[], by simp [mainLoop]⟩
  | cons event rest ih =>
    simp only [mainLoop]
    cases hp : processEvent (clock i) event with
    | error p => exact ⟨[], by simp⟩
    | ok outcome =>
      cases outcome with
      | send summary d message =>
        obtain ⟨more, hm⟩ := ih (i + 1) (calls ++ [(message, sendFails calls.length)])
        exact ⟨(message, sendFails calls.length) :: more, by simpa using hm⟩
      | skippedEmpty => exact ih (i + 1) calls
      | skippedSegments start => exact ih (i + 1) calls
      | skippedParse text => exact ih (i + 1) calls
      | notDue summary d => exact ih (i + 1) calls

/-- Without a panic, the loop of `main` runs to its end and calls `sendTelegramMessage` once
for each block that parses and triggers, in block order, whatever the calls return. -/
theorem mainLoop_calls (clock : Nat → Time) (sendFails : Nat → Bool) (events : List GoString)
    (i : Nat) (calls : List Call) (hsafe : neverPanics clock i events = true) :
    (mainLoop clock sendFails i events calls).exit = .finished ∧
    (mainLoop clock sendFails i events calls).calls.map Prod.fst
      = calls.map Prod.fst ++ dueMessages clock i events := by
  induction events generalizing i calls with
  | nil => simp [mainLoop, dueMessages]
  | cons event rest ih =>
    simp only [neverPanics] at hsafe
    simp only [mainLoop, dueMessages, dueMessage]
    cases hp : processEvent (clock i) event with
    | error p => simp [hp] at hsafe
    | ok outcome =>
      simp only [hp] at hsafe
      cases outcome with
      | send summary d message =>
        have := ih (i + 1) (calls ++ [(message, sendFails calls.length)]) hsafe
        simpa using this
      | skippedEmpty => simpa using ih (i + 1) calls hsafe
      | skippedSegments start => simpa using ih (i + 1) calls hsafe
      | skippedParse text => simpa using ih (i + 1) calls hsafe
      | notDue summary d => simpa using ih (i + 1) calls hsafe

/-- The failures of `getEvents` that are surfaced: an error of `http.NewRequest`, of
`client.Do` or of `ioutil.ReadAll` is returned, and `main` then ends at `log.Fatalf` without a
call of the notifier. -/
theorem getEvents_error_surfaced (w : World) (err : GoError) (hdot : w.dotenv = none)
    (h : w.net.newRequest = some err ∨
      (w.net.newRequest = none ∧ w.net.doResult = .error err) ∨
      (w.net.newRequest = none ∧ ∃ resp, w.net.doResult = .ok resp ∧
        (resp.statusCode = 200 ∨ resp.statusCode = 207) ∧ resp.body = .error err)) :
    getEvents w.net = ([], some err) ∧ main w = ⟨[], .fatal err⟩ := by
  have hg : getEvents w.net = ([], some err) := by
    unfold getEvents
    rcases h with h | ⟨h1, h2⟩ | ⟨h1, resp, h2, h3, h4⟩
    · simp only [h]
    · simp only [h1, h2]
    · simp only [h1, h2, h4]
      rcases h3 with h3 | h3 <;> simp [h3, okStatusCodes]
  refine ⟨hg, ?_⟩
  unfold main
  simp only [hdot, hg]

/-- The failure of `getEvents` that is not surfaced: on a status other than 200 and 207 the
result is the `nil` slice with the `nil` error. -/
theorem getEvents_bad_status (net : Fetch) (resp : Response) (hreq : net.newRequest = none)
    (hdo : net.doResult = .ok resp) (h200 : resp.statusCode ≠ 200)
    (h207 : resp.statusCode ≠ 207) :
    getEvents net = ([], none) := by
  unfold getEvents
  simp [hreq, hdo, okStatusCodes, h200, h207]

/-- Within the month, `n` days later is the same month, `n` days on. -/
theorem daysLater_within (n : Nat) (d : Date) (h : d.day + n ≤ daysIn d.month d.year) :
    daysLater n d = ⟨d.year, d.month, d.day + n⟩ := by
  induction n generalizing d with
  | zero => rfl
  | succ k ih =>
    have h1 : d.day < daysIn d.month d.year := by omega
    simp only [daysLater, nextDay, if_pos h1]
    rw [ih ⟨d.year, d.month, d.day + 1⟩ (by simp only []; omega)]
    simp only [Date.mk.injEq, true_and]
    omega

theorem daysLater_add (m n : Nat) (d : Date) : daysLater (m + n) d = daysLater n (daysLater m d) := by
  induction m generalizing d with
  | zero => simp [daysLater]
  | succ k ih =>
    rw [show k + 1 + n = (k + n) + 1 by omega]
    simp only [daysLater, ih]

/-- Every month of the calendar has at least 28 days. -/
theorem daysIn_ge (m : Nat) (year : Int) (h1 : 1 ≤ m) (h2 : m ≤ 12) : 28 ≤ daysIn m year := by
  unfold daysIn
  split
  · omega
  · interval_cases m <;> simp

/-- The day of the month seven calendar days after an existing date: seven days on, reduced by
the length of the month when that passes its end. -/
theorem daysLater_seven_day (d : Date) (hm1 : 1 ≤ d.month) (hm2 : d.month ≤ 12)
    (_hd1 : 1 ≤ d.day) (hd2 : d.day ≤ daysIn d.month d.year) :
    (daysLater 7 d).day =
      if d.day + 7 ≤ daysIn d.month d.year then d.day + 7
      else d.day + 7 - daysIn d.month d.year := by
  by_cases h : d.day + 7 ≤ daysIn d.month d.year
  · rw [if_pos h, daysLater_within 7 d h]
  · rw [if_neg h]
    obtain ⟨k, hk⟩ : ∃ k, d.day + k = daysIn d.month d.year := ⟨_, Nat.add_sub_cancel' hd2⟩
    have hk7 : k < 7 := by omega
    obtain ⟨r, hr⟩ : ∃ r, 7 = k + (1 + r) := ⟨6 - k, by omega⟩
    have hlast : ¬ (d.day + k < daysIn d.month d.year) := by omega
    have hstep : daysLater 1 ⟨d.year, d.month, d.day + k⟩
        = if d.month < 12 then ⟨d.year, d.month + 1, 1⟩ else ⟨d.year + 1, 1, 1⟩ := by
      show nextDay ⟨d.year, d.month, d.day + k⟩ = _
      unfold nextDay
      rw [if_neg hlast]
    rw [hr, daysLater_add, daysLater_within k d (by omega), daysLater_add, hstep]
    by_cases h12 : d.month < 12
    · have hnext := daysIn_ge (d.month + 1) d.year (by omega) (by omega)
      have hw : (1 : Nat) + r ≤ daysIn (d.month + 1) d.year := by omega
      rw [if_pos h12, daysLater_within r ⟨d.year, d.month + 1, 1⟩ hw]
      show 1 + r = _
      omega
    · have hnext := daysIn_ge 1 (d.year + 1) (by omega) (by omega)
      have hw : (1 : Nat) + r ≤ daysIn 1 (d.year + 1) := by omega
      rw [if_neg h12, daysLater_within r ⟨d.year + 1, 1, 1⟩ hw]
      show 1 + r = _
      omega

/-! ## The claims -/

/-- C1, refuted at a reference time whose wall clock reading seven days on is skipped by a zone
transition: at 00:30 on 2024-03-03 in Havana the date seven calendar days on is 2024-03-10, but
`now.AddDate(0, 0, 7)` is 23:30 on 2024-03-09, and a block that starts on 2024-03-10 is not
notified. -/
theorem zone_gap_week_not_notified :
    mar03Havana.date = ⟨2024, 3, 3⟩ ∧ mar03Havana.clock = (0, 30, 0) ∧
    daysLater 7 ⟨2024, 3, 3⟩ = ⟨2024, 3, 10⟩ ∧
    parseDate "20240310".toList = some ⟨2024, 3, 10⟩ ∧
    (mar03Havana.addDate 0 0 7).date = ⟨2024, 3, 9⟩ ∧
    (mar03Havana.addDate 0 0 7).clock = (23, 30, 0) ∧
    processEvent mar03Havana "\nSUMMARY:Dentist\nDTSTART;VALUE=DATE:20240310\n".toList
      = .ok (.notDue "Dentist".toList ⟨2024, 3, 10⟩) ∧
    mainLoop (fun _ => mar03Havana) (fun _ => false) 0
        ["\nSUMMARY:Dentist\nDTSTART;VALUE=DATE:20240310\n".toList] []
      = ⟨[], .finished⟩ := by
  decide

/-- C1 as amended (notification rule): for a block whose start date parses to `d` and every
reference time `now`, the loop of `main` calls the notifier for the block, once, exactly when
the day of the month of `d` is the day of the month of `now` or of `now.AddDate(0, 0, 7)`, both
read in the location of `now`; otherwise it makes no call.  Month and year play no part. -/
theorem notification_rule (clock : Nat → Time) (sendFails : Nat → Bool) (i : Nat)
    (event summary start first seg : GoString) (more : List GoString) (d : Date)
    (calls : List Call)
    (hs : extractValue event SUMMARY = .ok summary)
    (hd : extractValue event DTSTART = .ok start)
    (hsplit : split start colon = first :: seg :: more)
    (hparse : parseDate seg = some d) :
    processEvent (clock i) event =
      .ok (if d.day = (clock i).day ∨ d.day = ((clock i).addDate 0 0 7).day then
          .send summary d (summary ++ ": ".toList ++ formatDate d)
        else .notDue summary d) ∧
    mainLoop clock sendFails i [event] calls =
      ⟨if d.day = (clock i).day ∨ d.day = ((clock i).addDate 0 0 7).day then
          calls ++ [(summary ++ ": ".toList ++ formatDate d, sendFails calls.length)]
        else calls, .finished⟩ ∧
    ((∃ call, (mainLoop clock sendFails i [event] calls).calls = calls ++ [call]) ↔
      (d.day = (clock i).day ∨ d.day = ((clock i).addDate 0 0 7).day)) := by
  have hp := processEvent_segments (clock i) event summary start first seg more hs hd hsplit
  rw [hparse] at hp
  simp only [] at hp
  by_cases h : d.day = (clock i).day ∨ d.day = ((clock i).addDate 0 0 7).day
  · rw [if_pos h] at hp
    have hm : mainLoop clock sendFails i [event] calls
        = ⟨calls ++ [(summary ++ ": ".toList ++ formatDate d, sendFails calls.length)],
            .finished⟩ := by
      simp only [mainLoop, hp]
    rw [if_pos h, if_pos h]
    refine ⟨hp, hm, ?_⟩
    rw [hm]
    exact ⟨fun _ => h, fun _ => ⟨_, rfl⟩⟩
  · rw [if_neg h] at hp
    have hm : mainLoop clock sendFails i [event] calls = ⟨calls, .finished⟩ := by
      simp only [mainLoop, hp]
    rw [if_neg h, if_neg h]
    refine ⟨hp, hm, ?_⟩
    rw [hm]
    constructor
    · rintro ⟨call, hc⟩
      have hl := congrArg List.length hc
      simp only [List.length_append, List.length_singleton] at hl
      omega
    · intro h1
      exact absurd h1 h

/-- C1 as amended, the four examples of the specification with `now` at noon UTC on
2024-01-15: the starts 2024-01-15, 2024-01-22 and 2024-02-15 are notified, each with one call,
and the start 2024-01-16 is not. -/
theorem notification_rule_witness :
    (mainLoop (fun _ => jan15) (fun _ => false) 0
        ["\nSUMMARY:Dentist\nDTSTART;VALUE=DATE:20240115\nEND:VEVENT\n".toList] []).calls
      = [("Dentist: 15/01/2024".toList, false)] ∧
    (mainLoop (fun _ => jan15) (fun _ => false) 0
        ["\nSUMMARY:Dentist\nDTSTART;VALUE=DATE:20240122\nEND:VEVENT\n".toList] []).calls
      = [("Dentist: 22/01/2024".toList, false)] ∧
    (mainLoop (fun _ => jan15) (fun _ => false) 0
        ["\nSUMMARY:Dentist\nDTSTART;VALUE=DATE:20240215\nEND:VEVENT\n".toList] []).calls
      = [("Dentist: 15/02/2024".toList, false)] ∧
    (mainLoop (fun _ => jan15) (fun _ => false) 0
        ["\nSUMMARY:Dentist\nDTSTART;VALUE=DATE:20240116\nEND:VEVENT\n".toList] []).calls
      = [] :=
  ⟨(congrArg Run.calls (notification_rule (fun _ => jan15) (fun _ => false) 0
      "\nSUMMARY:Dentist\nDTSTART;VALUE=DATE:20240115\nEND:VEVENT\n".toList "Dentist".toList
      "VALUE=DATE:20240115".toList "VALUE=DATE".toList "20240115".toList [] ⟨2024, 1, 15⟩ []
      (by decide) (by decide) (by decide) (by decide)).2.1).trans (by decide),
   (congrArg Run.calls (notification_rule (fun _ => jan15) (fun _ => false) 0
      "\nSUMMARY:Dentist\nDTSTART;VALUE=DATE:20240122\nEND:VEVENT\n".toList "Dentist".toList
      "VALUE=DATE:20240122".toList "VALUE=DATE".toList "20240122".toList [] ⟨2024, 1, 22⟩ []
      (by decide) (by decide) (by decide) (by decide)).2.1).trans (by decide),
   (congrArg Run.calls (notification_rule (fun _ => jan15) (fun _ => false) 0
      "\nSUMMARY:Dentist\nDTSTART;VALUE=DATE:20240215\nEND:VEVENT\n".toList "Dentist".toList
      "VALUE=DATE:20240215".toList "VALUE=DATE".toList "20240215".toList [] ⟨2024, 2, 15⟩ []
      (by decide) (by decide) (by decide) (by decide)).2.1).trans (by decide),
   (congrArg Run.calls (notification_rule (fun _ => jan15) (fun _ => false) 0
      "\nSUMMARY:Dentist\nDTSTART;VALUE=DATE:20240116\nEND:VEVENT\n".toList "Dentist".toList
      "VALUE=DATE:20240116".toList "VALUE=DATE".toList "20240116".toList [] ⟨2024, 1, 16⟩ []
      (by decide) (by decide) (by decide) (by decide)).2.1).trans (by decide)⟩

/-- C6: for a block `pre ++ "SUMMARY:" ++ X ++ "\n" ++ post` in which `X` has no line
terminator and `SUMMARY` does not occur before this line (whatever follows the line, a
`DTSTART` line in particular), `extractValue(block, "SUMMARY")` returns exactly `X`. -/
theorem extractValue_summary (pre X post : GoString)
    (hfirst : ∀ j < pre.length,
      occursAt (pre ++ SUMMARY ++ (':' :: X) ++ ('\n' :: post)) SUMMARY j = false)
    (hX : '\n' ∉ X) :
    extractValue (pre ++ SUMMARY ++ (':' :: X) ++ ('\n' :: post)) SUMMARY = .ok X :=
  extractValue_line pre SUMMARY X post ':' hfirst hX

/-- C6 at the block `"\nUID:1\nSUMMARY:Dentist\nDTSTART;VALUE=DATE:20240115\nEND:VEVENT\n"`. -/
theorem extractValue_summary_witness :
    (∀ j < "\nUID:1\n".toList.length,
      occursAt ("\nUID:1\n".toList ++ SUMMARY ++ (':' :: "Dentist".toList) ++
        ('\n' :: "DTSTART;VALUE=DATE:20240115\nEND:VEVENT\n".toList)) SUMMARY j = false) ∧
    '\n' ∉ "Dentist".toList ∧
    extractValue ("\nUID:1\n".toList ++ SUMMARY ++ (':' :: "Dentist".toList) ++
        ('\n' :: "DTSTART;VALUE=DATE:20240115\nEND:VEVENT\n".toList)) SUMMARY
      = .ok "Dentist".toList :=
  ⟨by decide, by decide,
    extractValue_summary "\nUID:1\n".toList "Dentist".toList
      "DTSTART;VALUE=DATE:20240115\nEND:VEVENT\n".toList (by decide) (by decide)⟩

/-- C8, refuted at the line of the claim: on the block
`"DTSTART;TZID=Europe/London:20240115T100000\n"` the result of `extractValue(block, "DTSTART")`
is `TZID=Europe/London:20240115T100000`, not the empty string. -/
theorem extended_dtstart_not_empty :
    extractValue "DTSTART;TZID=Europe/London:20240115T100000\n".toList DTSTART
      = .ok "TZID=Europe/London:20240115T100000".toList ∧
    extractValue "DTSTART;TZID=Europe/London:20240115T100000\n".toList DTSTART ≠ .ok [] := by
  decide

/-- C8 as amended: for a block whose first occurrence of `DTSTART` is a line in the extended
form `DTSTART;params:value`, `extractValue(block, "DTSTART")` skips the one byte after the name
and returns `params:value`, the parameter list and the value up to the end of the line. -/
theorem extractValue_extended_form (pre params value post : GoString)
    (hfirst : ∀ j < pre.length,
      occursAt (pre ++ DTSTART ++ (';' :: (params ++ ':' :: value)) ++ ('\n' :: post))
        DTSTART j = false)
    (hnl : '\n' ∉ params ++ ':' :: value) :
    extractValue (pre ++ DTSTART ++ (';' :: (params ++ ':' :: value)) ++ ('\n' :: post))
      DTSTART = .ok (params ++ ':' :: value) :=
  extractValue_line pre DTSTART (params ++ ':' :: value) post ';' hfirst hnl

/-- C8 as amended, at the line `DTSTART;TZID=Europe/London:20240115T100000` after a `SUMMARY`
line. -/
theorem extractValue_extended_form_witness :
    (∀ j < "\nSUMMARY:Dentist\n".toList.length,
      occursAt ("\nSUMMARY:Dentist\n".toList ++ DTSTART ++
        (';' :: ("TZID=Europe/London".toList ++ ':' :: "20240115T100000".toList)) ++
        ('\n' :: "END:VEVENT\n".toList)) DTSTART j = false) ∧
    '\n' ∉ "TZID=Europe/London".toList ++ ':' :: "20240115T100000".toList ∧
    extractValue ("\nSUMMARY:Dentist\n".toList ++ DTSTART ++
        (';' :: ("TZID=Europe/London".toList ++ ':' :: "20240115T100000".toList)) ++
        ('\n' :: "END:VEVENT\n".toList)) DTSTART
      = .ok ("TZID=Europe/London".toList ++ ':' :: "20240115T100000".toList) :=
  ⟨by decide, by decide,
    extractValue_extended_form "\nSUMMARY:Dentist\n".toList "TZID=Europe/London".toList
      "20240115T100000".toList "END:VEVENT\n".toList (by decide) (by decide)⟩

/-- C9 (message format): for a block with extracted summary `s` whose start date parses to `d`
and triggers, the loop body calls `sendTelegramMessage` with exactly `s`, then `": "`, then `d`
written `DD/MM/YYYY`; in the loop of `main` that text is the argument of the next call, the one
call made for the block. -/
theorem message_format (now : Time) (event summary start first seg : GoString)
    (more : List GoString) (d : Date)
    (hs : extractValue event SUMMARY = .ok summary)
    (hd : extractValue event DTSTART = .ok start)
    (hsplit : split start colon = first :: seg :: more)
    (hparse : parseDate seg = some d)
    (hdue : d.day = now.day ∨ d.day = (now.addDate 0 0 7).day) :
    processEvent now event = .ok (.send summary d (summary ++ ": ".toList ++ ddmmyyyy d)) ∧
    ∀ (clock : Nat → Time) (sendFails : Nat → Bool) (i : Nat) (rest : List GoString)
      (calls : List Call), clock i = now →
      mainLoop clock sendFails i (event :: rest) calls =
        mainLoop clock sendFails (i + 1) rest
          (calls ++ [(summary ++ ": ".toList ++ ddmmyyyy d, sendFails calls.length)]) ∧
      mainLoop clock sendFails i [event] calls =
        ⟨calls ++ [(summary ++ ": ".toList ++ ddmmyyyy d, sendFails calls.length)],
          .finished⟩ := by
  have hvalid : validDate d := ((parseDate_eq_some_iff seg d).1 hparse).1
  have hp : processEvent now event
      = .ok (.send summary d (summary ++ ": ".toList ++ ddmmyyyy d)) := by
    rw [processEvent_segments now event summary start first seg more hs hd hsplit, hparse]
    simp only []
    rw [if_pos hdue, formatDate_valid d hvalid]
  refine ⟨hp, ?_⟩
  intro clock sendFails i rest calls hclock
  rw [← hclock] at hp
  refine ⟨mainLoop_send clock sendFails i event rest calls summary d _ hp, ?_⟩
  rw [mainLoop_send clock sendFails i event [] calls summary d _ hp]
  rfl

/-- C9 at the example of the claim: summary `Dentist` with start 2024-01-05 gives the message
`Dentist: 05/01/2024`, and the loop records one call with that text. -/
theorem message_format_witness :
    processEvent jan05 "\nSUMMARY:Dentist\nDTSTART;VALUE=DATE:20240105\n".toList
      = .ok (.send "Dentist".toList ⟨2024, 1, 5⟩ "Dentist: 05/01/2024".toList) ∧
    mainLoop (fun _ => jan05) (fun _ => true) 0
        ["\nSUMMARY:Dentist\nDTSTART;VALUE=DATE:20240105\n".toList] []
      = ⟨[("Dentist: 05/01/2024".toList, true)], .finished⟩ :=
  ⟨(message_format jan05 "\nSUMMARY:Dentist\nDTSTART;VALUE=DATE:20240105\n".toList
    "Dentist".toList "VALUE=DATE:20240105".toList "VALUE=DATE".toList "20240105".toList []
    ⟨2024, 1, 5⟩ (by decide) (by decide) (by decide) (by decide) (by decide)).1,
   ((message_format jan05 "\nSUMMARY:Dentist\nDTSTART;VALUE=DATE:20240105\n".toList
    "Dentist".toList "VALUE=DATE:20240105".toList "VALUE=DATE".toList "20240105".toList []
    ⟨2024, 1, 5⟩ (by decide) (by decide) (by decide) (by decide) (by decide)).2
      (fun _ => jan05) (fun _ => true) 0 [] [] rfl).2⟩

/-- C2, refuted at the line of the claim: on a block with the line
`DTSTART;TZID=Europe/London:20240115T100000` the value splits into two segments, the second
begins with the eight digits of the existing date 2024-01-15, and the block is skipped at the
date check, not accepted. -/
theorem timed_dtstart_skipped :
    extractValue "\nSUMMARY:Dentist\nDTSTART;TZID=Europe/London:20240115T100000\n".toList
        DTSTART = .ok "TZID=Europe/London:20240115T100000".toList ∧
    split "TZID=Europe/London:20240115T100000".toList colon
      = ["TZID=Europe/London".toList, "20240115T100000".toList] ∧
    "20240115T100000".toList = yyyymmdd ⟨2024, 1, 15⟩ ++ "T100000".toList ∧
    validDate ⟨2024, 1, 15⟩ ∧
    processEvent jan15
        "\nSUMMARY:Dentist\nDTSTART;TZID=Europe/London:20240115T100000\n".toList
      = .ok (.skippedParse "20240115T100000".toList) := by
  decide

/-- C2 as amended: for a block whose lookups return, whose `DTSTART` value splits on `:` into
at least two segments and whose second segment begins with the eight digits `YYYYMMDD` of an
existing date `d`: when nothing follows the eight digits the block is accepted as an event with
start date `d`, and when anything follows them it is skipped at the date check. -/
theorem dtstart_interpretation (now : Time) (event summary start first seg : GoString)
    (more : List GoString) (d : Date) (extra : GoString)
    (hs : extractValue event SUMMARY = .ok summary)
    (hd : extractValue event DTSTART = .ok start)
    (hsplit : split start colon = first :: seg :: more)
    (hseg : seg = yyyymmdd d ++ extra)
    (hvalid : validDate d) :
    processEvent now event =
      if extra = [] then
        if d.day = now.day ∨ d.day = (now.addDate 0 0 7).day then
          .ok (.send summary d (summary ++ ": ".toList ++ ddmmyyyy d))
        else .ok (.notDue summary d)
      else .ok (.skippedParse seg) := by
  rw [processEvent_segments now event summary start first seg more hs hd hsplit]
  by_cases hx : extra = []
  · subst hx
    rw [List.append_nil] at hseg
    rw [if_pos rfl, (parseDate_eq_some_iff seg d).2 ⟨hvalid, hseg⟩]
    simp only [formatDate_valid d hvalid]
  · rw [if_neg hx]
    cases hp : parseDate seg with
    | none => rfl
    | some d1 =>
      exfalso
      have h1 := ((parseDate_eq_some_iff seg d1).1 hp).2
      have h2 := congrArg List.length h1
      rw [hseg] at h2
      simp only [List.length_append, yyyymmdd, List.length_cons, List.length_nil] at h2
      have h3 : 0 < extra.length := List.length_pos.2 hx
      omega

/-- C2 as amended, at the all-day line `DTSTART;VALUE=DATE:20240115` on 2024-01-15: the block
is accepted with start date 2024-01-15. -/
theorem dtstart_interpretation_witness :
    processEvent jan15 "\nSUMMARY:Dentist\nDTSTART;VALUE=DATE:20240115\n".toList
      = .ok (.send "Dentist".toList ⟨2024, 1, 15⟩ "Dentist: 15/01/2024".toList) :=
  dtstart_interpretation jan15 "\nSUMMARY:Dentist\nDTSTART;VALUE=DATE:20240115\n".toList
    "Dentist".toList "VALUE=DATE:20240115".toList "VALUE=DATE".toList "20240115".toList []
    ⟨2024, 1, 15⟩ [] (by decide) (by decide) (by decide) (by decide) (by decide)

/-- C7, the code at a block that ends right after the property name: the slice expression
`event[start:]` of `extractValue` is out of range and the program panics; no empty string is
returned. -/
theorem extractValue_truncated_panics :
    extractValue "DTSTART".toList DTSTART = .error (.sliceBounds 8 7) ∧
    extractValue "\nSUMMARY:Dentist\nDTSTART".toList DTSTART = .error (.sliceBounds 25 24) := by
  decide

/-- C10, the code at a block with a plain `DTSTART` line that ends right after the text
`SUMMARY`: the value of `DTSTART` is `20240115`, without `:`, and the loop body panics in the
lookup of `SUMMARY` (line 41) before it reaches the two-segment check. -/
theorem plain_dtstart_panics :
    extractValue "DTSTART:20240115\nSUMMARY".toList DTSTART = .ok "20240115".toList ∧
    ':' ∉ "20240115".toList ∧
    processEvent jan15 "DTSTART:20240115\nSUMMARY".toList
      = .error (.sliceBounds 25 24) := by
  decide

/-- C3, the code at two blocks of which the first ends right after the text `SUMMARY` and the
second parses and triggers: the run panics in the first iteration, and the notifier is never
attempted for the second block. -/
theorem panic_stops_later_notifications :
    processEvent jan15 "\nSUMMARY:Dentist\nDTSTART;VALUE=DATE:20240115\n".toList
      = .ok (.send "Dentist".toList ⟨2024, 1, 15⟩ "Dentist: 15/01/2024".toList) ∧
    mainLoop (fun _ => jan15) (fun _ => false) 0
        ["\nX-NOTE:SUMMARY".toList,
         "\nSUMMARY:Dentist\nDTSTART;VALUE=DATE:20240115\n".toList] []
      = ⟨[], .panicked (.sliceBounds 16 15)⟩ ∧
    main (exampleWorld 207
        "BEGIN:VEVENT\nX-NOTE:SUMMARYBEGIN:VEVENT\nSUMMARY:Dentist\nDTSTART;VALUE=DATE:20240115\n".toList
        jan15 false)
      = ⟨[], .panicked (.sliceBounds 16 15)⟩ := by
  decide

/-- C4, the code when the server answers 401: `getEvents` returns the `nil` slice and the `nil`
error, and `main` runs to `Program finished` instead of aborting. -/
theorem bad_status_not_surfaced :
    getEvents ⟨none, .ok ⟨401, .ok "Unauthorized".toList⟩⟩ = ([], none) ∧
    main (exampleWorld 401 "Unauthorized".toList jan15 false) = ⟨[], .finished⟩ := by
  decide

/-- C5, refuted at a response whose text before the first `BEGIN:VEVENT` holds a `SUMMARY`
and a `DTSTART` line: that text is the first element of `events`, and the one notification of
the run is derived from it (the block after the marker, alone, gives none). -/
theorem preamble_notifies :
    split "SUMMARY:Boiler\nDTSTART;VALUE=DATE:20240115\nBEGIN:VEVENT\nSUMMARY:Dentist\nDTSTART;VALUE=DATE:20240116\n".toList
        beginVEvent
      = ["SUMMARY:Boiler\nDTSTART;VALUE=DATE:20240115\n".toList,
         "\nSUMMARY:Dentist\nDTSTART;VALUE=DATE:20240116\n".toList] ∧
    main (exampleWorld 207
        "SUMMARY:Boiler\nDTSTART;VALUE=DATE:20240115\nBEGIN:VEVENT\nSUMMARY:Dentist\nDTSTART;VALUE=DATE:20240116\n".toList
        jan15 false)
      = ⟨[("Boiler: 15/01/2024".toList, false)], .finished⟩ ∧
    mainLoop (fun _ => jan15) (fun _ => false) 1
        ["\nSUMMARY:Dentist\nDTSTART;VALUE=DATE:20240116\n".toList] []
      = ⟨[], .finished⟩ := by
  decide

/-- C5 as amended: when the fetch succeeds, the first segment of the split on `BEGIN:VEVENT`,
the text before the first marker, is the first element the loop of `main` processes, by the
same loop body as every other segment; when it parses and triggers, its message is the first
call of the notifier. -/
theorem preamble_processed (w : World) (resp : Response) (response : GoString)
    (hdot : w.dotenv = none) (hreq : w.net.newRequest = none)
    (hdo : w.net.doResult = .ok resp)
    (hstatus : resp.statusCode = 200 ∨ resp.statusCode = 207)
    (hbody : resp.body = .ok response) :
    ∃ rest, split response beginVEvent = textBefore response beginVEvent :: rest ∧
      main w = mainLoop w.clock w.sendFails 0 (textBefore response beginVEvent :: rest) [] ∧
      ∀ summary d message,
        processEvent (w.clock 0) (textBefore response beginVEvent)
          = .ok (.send summary d message) →
        main w = mainLoop w.clock w.sendFails 1 rest [(message, w.sendFails 0)] ∧
        (main w).calls.head? = some (message, w.sendFails 0) := by
  obtain ⟨rest, hrest⟩ := split_head response beginVEvent
  have hg : getEvents w.net = (split response beginVEvent, none) := by
    unfold getEvents
    simp only [hreq, hdo, hbody]
    rcases hstatus with h | h <;> simp [h, okStatusCodes]
  have hmain : main w
      = mainLoop w.clock w.sendFails 0 (textBefore response beginVEvent :: rest) [] := by
    unfold main
    simp only [hdot, hg, hrest]
  refine ⟨rest, hrest, hmain, ?_⟩
  intro summary d message hp
  have hstep : main w = mainLoop w.clock w.sendFails 1 rest [(message, w.sendFails 0)] := by
    rw [hmain, mainLoop_send w.clock w.sendFails 0 _ rest [] summary d message hp]
    rfl
  refine ⟨hstep, ?_⟩
  obtain ⟨more, hmore⟩ :=
    mainLoop_calls_front w.clock w.sendFails rest 1 [(message, w.sendFails 0)]
  rw [hstep, hmore]
  rfl

/-- C5 as amended, at a response whose text before the first marker parses and triggers. -/
theorem preamble_processed_witness :
    ∃ rest,
      split "SUMMARY:Boiler\nDTSTART;VALUE=DATE:20240115\nBEGIN:VEVENT\n".toList beginVEvent
        = textBefore "SUMMARY:Boiler\nDTSTART;VALUE=DATE:20240115\nBEGIN:VEVENT\n".toList
            beginVEvent :: rest ∧
      main (exampleWorld 200
          "SUMMARY:Boiler\nDTSTART;VALUE=DATE:20240115\nBEGIN:VEVENT\n".toList jan15 true)
        = mainLoop (fun _ => jan15) (fun _ => true) 0
            (textBefore "SUMMARY:Boiler\nDTSTART;VALUE=DATE:20240115\nBEGIN:VEVENT\n".toList
              beginVEvent :: rest) [] :=
  (preamble_processed
    (exampleWorld 200 "SUMMARY:Boiler\nDTSTART;VALUE=DATE:20240115\nBEGIN:VEVENT\n".toList
      jan15 true)
    ⟨200, .ok "SUMMARY:Boiler\nDTSTART;VALUE=DATE:20240115\nBEGIN:VEVENT\n".toList⟩
    "SUMMARY:Boiler\nDTSTART;VALUE=DATE:20240115\nBEGIN:VEVENT\n".toList
    rfl rfl rfl (Or.inl rfl) rfl).imp (fun _ h => ⟨h.1, h.2.1⟩)

end CalendarNotifier
